import Mathlib

/-!
Verification development for the npy_utils repository (src/npy_utils.hpp,
src/npy_utils.cpp): a shallow embedding of the NPY header parser, the NPY
writers, the file loaders and the folder aggregator, with theorems about
the specified properties.

Bytes on disk are modelled as `Char` values (every byte value 0..255 is a
valid `Char`), streams as `List Char`.  Machine integers are `Nat` with
explicit bounds where overflow matters.  C++ exceptions are modelled by
`Except String`.
-/

set_option maxRecDepth 4000
set_option maxHeartbeats 1000000

/-! ## Characters and fixed strings -/

def nullChar : Char := Char.ofNat 0
def nlChar : Char := Char.ofNat 10
def squote : Char := Char.ofNat 39
def lbrace : Char := Char.ofNat 123
def rbrace : Char := Char.ofNat 125

/-- Decimal digit character, as produced by std::to_string. -/
def digitChar (d : Nat) : Char := Char.ofNat (48 + d)

/-- Fuelled core of decimal rendering (std::to_string on an unsigned value).
The fuel argument only drives termination; `toDecimal_eq` below shows the
expected recurrence. -/
def toDecimalGo : Nat → Nat → List Char
  | 0, n => [digitChar n]
  | fuel+1, n =>
    if n < 10 then [digitChar n] else toDecimalGo fuel (n / 10) ++ [digitChar (n % 10)]

/-- Decimal rendering of a natural number (models std::to_string). -/
def toDecimal (n : Nat) : List Char := toDecimalGo n n

/-- Accumulate the decimal value of a digit string (the conversion performed
by atoi / std::stoi on a string of decimal digits). -/
def parseNat (l : List Char) : Nat :=
  l.foldl (fun a c => a * 10 + (c.toNat - 48)) 0

/-- std::string::find(pattern): index of the first occurrence. -/
def strFind (l pat : List Char) : Option Nat :=
  if pat.isPrefixOf l then some 0
  else
    match l with
    | [] => none
    | _ :: tl => (strFind tl pat).map (· + 1)

/-- std::string::find(char): index of the first occurrence. -/
def findCharIdx (l : List Char) (c : Char) : Option Nat :=
  match l with
  | [] => none
  | x :: tl => if x = c then some 0 else (findCharIdx tl c).map (· + 1)

/-- First index holding a character different from `c`. -/
def findNotIdx (l : List Char) (c : Char) : Option Nat :=
  match l with
  | [] => none
  | x :: tl => if x ≠ c then some 0 else (findNotIdx tl c).map (· + 1)

/-- atoi on the strings fed to it by the parser: value of the leading run
of decimal digits (0 when the string does not start with a digit). -/
def atoi_model (s : List Char) : Nat := parseNat (s.takeWhile (·.isDigit))

/-- std::stoi: converts the leading digit run, throwing out_of_range when
the value does not fit in int (INT_MAX = 2147483647).  The digit runs the
parser feeds it carry no sign. -/
def stoi_model (s : List Char) : Except String Nat :=
  match s with
  | [] => Except.error "stoi: invalid argument"
  | c :: _ =>
    if c.isDigit then
      let v := parseNat (s.takeWhile (·.isDigit))
      if v ≤ 2147483647 then Except.ok v else Except.error "stoi: out of range"
    else Except.error "stoi: invalid argument"

/-- Accumulator-passing extraction of the maximal decimal digit runs of a
string, in order: the successive matches of the regex [0-9][0-9]* used by
parse_npy_header (npy_utils.cpp lines 69-77). -/
def digitRunsAux : List Char → List Char → List (List Char)
  | [], acc => if acc = [] then [] else [acc.reverse]
  | c :: cs, acc =>
    if c.isDigit then digitRunsAux cs (c :: acc)
    else if acc = [] then digitRunsAux cs []
    else acc.reverse :: digitRunsAux cs []

def digitRuns (l : List Char) : List (List Char) := digitRunsAux l []

def spaces (n : Nat) : List Char := List.replicate n ' '

/-! ## The header parser (npy_utils.cpp) -/

/-- Embedding of find_header_substring (npy_utils.cpp lines 4-38).  The two
C++ loops scan for a newline without a bound; on a buffer holding no newline
the scan leaves the buffer, which is undefined behaviour — we model that
path by the function's own declared fallback for the no-newline case, the
empty string (lines 36-37). -/
def find_header_substring (buffer : List Char) : List Char :=
  if nlChar ∈ buffer then
    match findNotIdx (buffer.takeWhile (fun c => c ≠ nlChar)) nullChar with
    | none => []
    | some s =>
      (buffer.take ((buffer.takeWhile (fun c => c ≠ nlChar)).length + 1)).drop s
  else []

/-- fgets(buffer, 256, fp): reads at most 255 characters, stopping after a
newline; returns the line read and the unconsumed remainder of the stream. -/
def fgets_255 (rest : List Char) : List Char × List Char :=
  let avail := rest.take 255
  match findCharIdx avail nlChar with
  | some i => (rest.take (i + 1), rest.drop (i + 1))
  | none => (avail, rest.drop 255)

structure NpyHeader where
  word_size : Nat
  shape : List Nat
  fortran_order : Bool
deriving DecidableEq

def fortranKey : List Char := ['f','o','r','t','r','a','n','_','o','r','d','e','r']
def descrKey : List Char := ['d','e','s','c','r']
def trueLit : List Char := ['T','r','u','e']

/-- Embedding of the dictionary-scanning part of parse_npy_header
(npy_utils.cpp lines 56-91), applied to the header string returned by
find_header_substring.  substr(pos, n) throws std::out_of_range when
pos > size(), modelled by the explicit bound checks; operator[] at
position size() yields the terminating null character, modelled by
`getD _ nullChar`. -/
def parse_dict (header : List Char) : Except String NpyHeader :=
  -- fortran order (lines 56-61)
  match strFind header fortranKey with
  | none => Except.error "parse_npy_header: failed to find header keyword: fortran_order"
  | some loc1f =>
    if header.length < loc1f + 16 then Except.error "substr: out of range"
    else
      -- shape (lines 63-77)
      match findCharIdx header '(' , findCharIdx header ')' with
      | some p1, some p2 =>
        -- substr(loc1 + 1, loc2 - loc1 - 1): size_t subtraction wraps when
        -- loc2 < loc1 + 1, and substr then clamps the length to the end
        match (digitRuns ((header.drop (p1 + 1)).take
            (if p1 + 1 ≤ p2 then p2 - (p1 + 1) else header.length - (p1 + 1)))).mapM
            stoi_model with
        | Except.error msg => Except.error msg
        | Except.ok shape =>
          -- descr (lines 79-90)
          match strFind header descrKey with
          | none => Except.error "parse_npy_header: failed to find header keyword: descr"
          | some d =>
            if header.getD (d + 9) nullChar = '<' ∨ header.getD (d + 9) nullChar = '|' then
              if header.length < d + 11 then Except.error "substr: out of range"
              else
                Except.ok ⟨atoi_model ((header.drop (d + 11)).take
                    ((findCharIdx (header.drop (d + 11)) squote).getD
                      (header.drop (d + 11)).length)),
                  shape,
                  decide (((header.drop (loc1f + 16)).take 4) = trueLit)⟩
            else
              Except.error "parse_npy_header: only little endian data is supported"
      | _, _ => Except.error "parse_npy_header: failed to find header keyword: parens"

/-- Embedding of parse_npy_header (npy_utils.cpp lines 40-92).  The first
fread consumes 11 bytes unconditionally (magic, the two version bytes, and
the first part of the length field) without inspecting them; fgets then
reads the rest of the header line into a 256-byte buffer.  When fgets hits
end of file it returns NULL and leaves the buffer holding the 11 bytes the
fread stored there.  The result also carries the unconsumed remainder of
the stream (the bytes a subsequent fread of the payload would see). -/
def parse_npy_header (file : List Char) : Except String (NpyHeader × List Char) :=
  if file.length < 11 then Except.error "parse_npy_header: failed in fread"
  else
    let rest := file.drop 11
    let fg := fgets_255 rest
    let buffer := if rest = [] then file.take 11 else fg.1
    let header := find_header_substring buffer
    if header.getLast? ≠ some nlChar then
      Except.error "parse_npy_header: failed to read header"
    else
      (parse_dict header).map (fun h => (h, fg.2))

/-! ## The writers (npy_utils.hpp, save_mat lines 91-167, save_arr 169-237) -/

/-- The C++ element types the writers dispatch on via std::is_same; `other`
stands for any type outside the ten supported ones. -/
inductive CppType
  | float | double | int8 | int16 | int32 | int64
  | uint8 | uint16 | uint32 | uint64
  | other (size : Nat)
deriving DecidableEq

/-- The dtype descriptor chosen by the if-chain of the writers
(npy_utils.hpp lines 115-139); none for an unsupported type. -/
def dtype_of : CppType → Option (List Char)
  | .float  => some ['<','f','4']
  | .double => some ['<','f','8']
  | .int8   => some ['|','i','1']
  | .int16  => some ['<','i','2']
  | .int32  => some ['<','i','4']
  | .int64  => some ['<','i','8']
  | .uint8  => some ['|','u','1']
  | .uint16 => some ['<','u','2']
  | .uint32 => some ['<','u','4']
  | .uint64 => some ['<','u','8']
  | .other _ => none

def sizeof_t : CppType → Nat
  | .float => 4 | .double => 8
  | .int8 => 1 | .int16 => 2 | .int32 => 4 | .int64 => 8
  | .uint8 => 1 | .uint16 => 2 | .uint32 => 4 | .uint64 => 8
  | .other sz => sz

def sMagic : List Char := [Char.ofNat 147, 'N','U','M','P','Y']
def verBytes2 : List Char := [Char.ofNat 2, Char.ofNat 0]
def sDescrPrefix : List Char := [lbrace, squote, 'd','e','s','c','r', squote, ':', ' ', squote]
def sFortranMid : List Char :=
  [squote, ',', ' ', squote, 'f','o','r','t','r','a','n','_','o','r','d','e','r', squote, ':', ' ']
def sTrue : List Char := ['T','r','u','e']
def sFalse : List Char := ['F','a','l','s','e']
def sShapeMid : List Char := [',', ' ', squote, 's','h','a','p','e', squote, ':', ' ', '(']
def sCommaSpace : List Char := [',', ' ']
def sMatClose : List Char := [')', ',', ' ', rbrace]
def sArrClose : List Char := [',', ')', ',', ' ', rbrace]

/-- Little-endian 4-byte rendering of the uint32_t header length. -/
def le4 (n : Nat) : List Char :=
  [Char.ofNat (n % 256), Char.ofNat (n / 256 % 256),
   Char.ofNat (n / 65536 % 256), Char.ofNat (n / 16777216 % 256)]

/-- The header string built by save_mat (npy_utils.hpp lines 111-153):
dictionary, space padding computed as 16 - (10 + size) % 16, and the
terminating newline; none when the element type is unsupported. -/
def save_mat_header (t : CppType) (fortranOrder : Bool) (rows cols : Nat) :
    Option (List Char) :=
  match dtype_of t with
  | none => none
  | some dt =>
    let dict := sDescrPrefix ++ dt ++ sFortranMid ++
      (if fortranOrder then sTrue else sFalse) ++ sShapeMid ++
      toDecimal rows ++ sCommaSpace ++ toDecimal cols ++ sMatClose
    let padding := 16 - (10 + dict.length) % 16
    some (dict ++ spaces padding ++ [nlChar])

/-- The header string built by save_arr (npy_utils.hpp lines 188-222):
fortran_order is always False and the shape uses the rank-1 form (N,). -/
def save_arr_header (t : CppType) (size_v : Nat) : Option (List Char) :=
  match dtype_of t with
  | none => none
  | some dt =>
    let dict := sDescrPrefix ++ dt ++ sFortranMid ++ sFalse ++ sShapeMid ++
      toDecimal size_v ++ sArrClose
    let padding := 16 - (10 + dict.length) % 16
    some (dict ++ spaces padding ++ [nlChar])

/-- The complete byte stream save_mat writes: magic, version 2.0, the
4-byte little-endian header length, the header string, then the raw matrix
payload (`payload` stands for the rows*cols*sizeof(T) bytes at
matrix.data()). -/
def save_mat_file (t : CppType) (fortranOrder : Bool) (rows cols : Nat)
    (payload : List Char) : Option (List Char) :=
  (save_mat_header t fortranOrder rows cols).map
    (fun hdr => sMagic ++ verBytes2 ++ le4 hdr.length ++ hdr ++ payload)

/-- The complete byte stream save_arr writes. -/
def save_arr_file (t : CppType) (size_v : Nat) (payload : List Char) :
    Option (List Char) :=
  (save_arr_header t size_v).map
    (fun hdr => sMagic ++ verBytes2 ++ le4 hdr.length ++ hdr ++ payload)

/-! ## Writer outcomes as seen by the caller (for save_mat / save_arr) -/

/-- Observable effects of one call to save_mat or save_arr: whether the
stream opened, the bytes written to it, the diagnostics printed to
std::cerr, and the error (exception) surfaced to the caller, if any. -/
structure SaveOutcome where
  opened : Bool
  content : List Char
  stderrMsgs : List String
  callerError : Option String
deriving DecidableEq

def openFailMsg : String := "Failed to open file for writing"
def unsupMsg : String := "Unsupported data type"

/-- Embedding of save_arr (npy_utils.hpp lines 169-237).  On open failure
it prints to cerr and returns (void, no exception); on an unsupported
element type it has already written the magic and version bytes, prints to
cerr, closes the stream and returns.  The function body contains no throw,
so callerError is none on every path. -/
def save_arr_model (openOk : Bool) (t : CppType) (data : List Char)
    (size_v : Nat) : SaveOutcome :=
  if openOk = false then ⟨false, [], [openFailMsg], none⟩
  else
    match save_arr_header t size_v with
    | none => ⟨true, sMagic ++ verBytes2, [unsupMsg], none⟩
    | some hdr =>
      ⟨true, sMagic ++ verBytes2 ++ le4 hdr.length ++ hdr ++ data, [], none⟩

/-- Embedding of save_mat (npy_utils.hpp lines 91-167); same error
structure as save_arr. `data` stands for the rows*cols*sizeof(T) payload
bytes. -/
def save_mat_model (openOk : Bool) (t : CppType) (fortranOrder : Bool)
    (rows cols : Nat) (data : List Char) : SaveOutcome :=
  if openOk = false then ⟨false, [], [openFailMsg], none⟩
  else
    match save_mat_header t fortranOrder rows cols with
    | none => ⟨true, sMagic ++ verBytes2, [unsupMsg], none⟩
    | some hdr =>
      ⟨true, sMagic ++ verBytes2 ++ le4 hdr.length ++ hdr ++ data, [], none⟩

/-! ## The loaders (npy_utils.cpp lines 94-142, npy_utils.hpp 61-89, 312-329) -/

/-- The NpyArray container: shape, word_size, fortran_order and the owned
payload bytes (data_holder of size num_vals * word_size). -/
structure NpyArr where
  shape : List Nat
  word_size : Nat
  fortran_order : Bool
  data : List Char
deriving DecidableEq

/-- load_the_npy_file (npy_utils.cpp lines 94-106): parse the header,
allocate num_vals * word_size bytes, read exactly that many payload bytes,
throwing on a short read. -/
def load_the_npy_file_model (bytes : List Char) : Except String NpyArr := do
  let pr ← parse_npy_header bytes
  let h := pr.1
  let num_vals := h.shape.foldl (· * ·) 1
  let nb := num_vals * h.word_size
  if pr.2.length < nb then Except.error "load_the_npy_file: failed fread"
  else Except.ok ⟨h.shape, h.word_size, h.fortran_order, pr.2.take nb⟩

/-- npy_load (npy_utils.cpp lines 108-119).  The input is none when fopen
fails.  The Bool records whether the fopen-acquired FILE* leaked: fclose is
only reached on the successful path, so any exception thrown by
load_the_npy_file propagates with the handle still open. -/
def npy_load_model (file : Option (List Char)) : Except String NpyArr × Bool :=
  match file with
  | none => (Except.error "npy_load: Unable to open file", false)
  | some bytes =>
    match load_the_npy_file_model bytes with
    | Except.error e => (Except.error e, true)
    | Except.ok arr => (Except.ok arr, false)

/-- _map_data (npy_utils.hpp lines 312-329): open, parse the header, read
word_size * prod(shape) payload bytes into the destination, throwing on a
short read; fclose only afterwards.  The Bool records whether the handle
leaked, as in npy_load_model. -/
def map_data_model (file : Option (List Char)) : Except String Unit × Bool :=
  match file with
  | none => (Except.error "npy_load_data: Unable to open file", false)
  | some bytes =>
    match parse_npy_header bytes with
    | Except.error e => (Except.error e, true)
    | Except.ok pr =>
      let total_size := pr.1.shape.foldl (· * ·) 1
      let n_bytes := pr.1.word_size * total_size
      if pr.2.length < n_bytes then (Except.error "npy_load_data: failed fread", true)
      else (Except.ok (), false)

/-- load_npy_mat (npy_utils.hpp lines 61-89) after npy_load has produced
the container: rejects rank different from 2, then builds the row-major
matrix entry by entry, reading element (i,j) from raw offset j*rows+i for
a column-major file and i*cols+j otherwise.  `tSize` is sizeof(T); an
element is the corresponding tSize-byte slice of the payload.  There is no
comparison of tSize with the container's word_size anywhere. -/
def load_npy_mat_model (tSize : Nat) (a : NpyArr) :
    Except String (List (List (List Char))) :=
  if a.shape.length ≠ 2 then
    Except.error "Only 2D arrays can be converted to Eigen matrices."
  else
    let r := a.shape.getD 0 0
    let c := a.shape.getD 1 0
    let elem := fun k => (a.data.drop (k * tSize)).take tSize
    Except.ok ((List.range r).map fun i => (List.range c).map fun j =>
      if a.fortran_order then elem (j * r + i) else elem (i * c + j))

/-- The full load_npy_mat pipeline on a byte stream: npy_load then the
matrix conversion. -/
def load_npy_mat_file (tSize : Nat) (bytes : List Char) :
    Except String (List (List (List Char))) :=
  load_the_npy_file_model bytes >>= load_npy_mat_model tSize

def exceptIsOk {ε α : Type} : Except ε α → Bool
  | Except.ok _ => true
  | Except.error _ => false

/-! ## The folder aggregator fill loop (npy_utils.hpp lines 332-387) -/

/-- One iteration per remaining fuel unit: models
for (size_t i = start_i; i < file_count; ++i)
    _map_data(file i, data_ptr + i * rows * cols);
as the list of (file index, element offset) pairs the loop processes, in
order.  The fuel file_count - start_i is exactly the number of iterations
of that loop. -/
def folder_fill_go (rows cols : Nat) : Nat → Nat → List (Nat × Nat)
  | 0, _ => []
  | fuel+1, i => (i, i * rows * cols) :: folder_fill_go rows cols fuel (i + 1)

/-- The (file index, element offset) pairs written by the fill loop of
npy_folder2mat (npy_utils.hpp lines 379-384), given the first index and
the probed file_count. -/
def folder_fill (start_i file_count rows cols : Nat) : List (Nat × Nat) :=
  folder_fill_go rows cols (file_count - start_i) start_i

/-! ## Concrete test streams used by the claim theorems -/

/-- The stream save_arr<double> writes for 3 elements, with its first six
bytes (the magic) replaced by ASCII letters. -/
def badMagicFile : List Char :=
  ['A','A','A','A','A','A'] ++ (((save_arr_file CppType.double 3 []).getD []).drop 6)

/-- A well-formed version-1.0 stream: 2-byte little-endian length field
(value 70), dictionary at offset 10, 10 + 70 = 80 prefix bytes (a multiple
of 16), and a payload of 8 float64 elements. -/
def v1File : List Char :=
  sMagic ++ [Char.ofNat 1, Char.ofNat 0] ++ [Char.ofNat 70, nullChar] ++
  ((sDescrPrefix ++ ['<','f','8'] ++ sFortranMid ++ sFalse ++ sShapeMid ++
    toDecimal 8 ++ sArrClose) ++ spaces 12 ++ [nlChar]) ++ List.replicate 64 nullChar

/-- A version-2.0 stream in writer layout whose descr token is the given
dt, with shape (4,) and fortran_order False: probes the parser's dtype
handling. -/
def dtypeTestFile (dt : List Char) : List Char :=
  sMagic ++ verBytes2 ++
  le4 ((sDescrPrefix ++ dt ++ sFortranMid ++ sFalse ++ sShapeMid ++
    toDecimal 4 ++ sArrClose) ++ spaces (16 - (10 + (sDescrPrefix ++ dt ++ sFortranMid ++
    sFalse ++ sShapeMid ++ toDecimal 4 ++ sArrClose).length) % 16) ++ [nlChar]).length ++
  ((sDescrPrefix ++ dt ++ sFortranMid ++ sFalse ++ sShapeMid ++
    toDecimal 4 ++ sArrClose) ++ spaces (16 - (10 + (sDescrPrefix ++ dt ++ sFortranMid ++
    sFalse ++ sShapeMid ++ toDecimal 4 ++ sArrClose).length) % 16) ++ [nlChar])

/-- save_mat<float> output for a 2x2 row-major matrix: declared word_size 4
with 16 payload bytes. -/
def wordSizeMismatchFile : List Char :=
  (save_mat_file CppType.float false 2 2 (List.replicate 16 nullChar)).getD []


deriving instance DecidableEq for Except

/-! ## Helper lemmas: decimal rendering -/

lemma toDecimalGo_congr : ∀ f1 f2 n : Nat, n ≤ f1 → n ≤ f2 →
    toDecimalGo f1 n = toDecimalGo f2 n := by
  intro f1
  induction f1 with
  | zero =>
    intro f2 n h1 h2
    have hn : n = 0 := Nat.le_zero.mp h1
    subst hn
    cases f2 with
    | zero => rfl
    | succ g => simp [toDecimalGo]
  | succ f ih =>
    intro f2 n h1 h2
    cases f2 with
    | zero =>
      have hn : n = 0 := Nat.le_zero.mp h2
      subst hn
      simp [toDecimalGo]
    | succ g =>
      by_cases hn : n < 10
      · simp [toDecimalGo, hn]
      · have hd : n / 10 < n := Nat.div_lt_self (by omega) (by omega)
        simp only [toDecimalGo, if_neg hn]
        rw [ih g (n / 10) (by omega) (by omega)]

lemma toDecimal_eq (n : Nat) : toDecimal n =
    if n < 10 then [digitChar n] else toDecimal (n / 10) ++ [digitChar (n % 10)] := by
  by_cases h : n < 10
  · rw [if_pos h]
    unfold toDecimal
    cases n with
    | zero => rfl
    | succ m => simp [toDecimalGo, h]
  · rw [if_neg h]
    unfold toDecimal
    cases n with
    | zero => omega
    | succ m =>
      simp only [toDecimalGo, if_neg h]
      have hd : (m + 1) / 10 < m + 1 := Nat.div_lt_self (by omega) (by omega)
      rw [toDecimalGo_congr m ((m + 1) / 10) ((m + 1) / 10) (by omega) (by omega)]

lemma digitChar_isDigit {d : Nat} (h : d < 10) : (digitChar d).isDigit = true := by
  interval_cases d <;> decide

lemma digitChar_toNat {d : Nat} (h : d < 10) : (digitChar d).toNat = 48 + d := by
  interval_cases d <;> decide

lemma toDecimal_all_digits : ∀ n : Nat, ∀ c ∈ toDecimal n, c.isDigit = true := by
  intro n
  induction n using Nat.strong_induction_on with
  | _ n ih =>
    rw [toDecimal_eq]
    by_cases h : n < 10
    · simp only [if_pos h, List.mem_singleton]
      intro c hc
      subst hc
      exact digitChar_isDigit h
    · simp only [if_neg h]
      intro c hc
      rcases List.mem_append.mp hc with h1 | h2
      · exact ih (n / 10) (Nat.div_lt_self (by omega) (by omega)) c h1
      · rw [List.mem_singleton] at h2
        subst h2
        exact digitChar_isDigit (Nat.mod_lt _ (by omega))

lemma parseNat_append_single (l : List Char) (c : Char) :
    parseNat (l ++ [c]) = parseNat l * 10 + (c.toNat - 48) := by
  simp [parseNat, List.foldl_append]

lemma parseNat_toDecimal : ∀ n : Nat, parseNat (toDecimal n) = n := by
  intro n
  induction n using Nat.strong_induction_on with
  | _ n ih =>
    rw [toDecimal_eq]
    by_cases h : n < 10
    · rw [if_pos h]
      show parseNat [digitChar n] = n
      simp [parseNat, digitChar_toNat h]
    · rw [if_neg h, parseNat_append_single,
        ih (n / 10) (Nat.div_lt_self (by omega) (by omega)),
        digitChar_toNat (Nat.mod_lt _ (by omega))]
      omega

lemma toDecimal_ne_nil (n : Nat) : toDecimal n ≠ [] := by
  rw [toDecimal_eq]
  split <;> simp

lemma toDecimal_length_le : ∀ n k : Nat, n < 10 ^ k → 1 ≤ k → (toDecimal n).length ≤ k := by
  intro n
  induction n using Nat.strong_induction_on with
  | _ n ih =>
    intro k hk h1
    rw [toDecimal_eq]
    by_cases h : n < 10
    · simp only [if_pos h, List.length_singleton]
      omega
    · rw [if_neg h]
      have hk2 : 2 ≤ k := by
        rcases Nat.lt_or_ge k 2 with hlt | hge
        · have hk1 : k = 1 := by omega
          subst hk1
          norm_num at hk
          omega
        · exact hge
      have hpow : 10 ^ k = 10 ^ (k - 1) * 10 := by
        rw [← pow_succ]
        congr 1
        omega
      have hdiv : n / 10 < 10 ^ (k - 1) := by
        rw [hpow, Nat.mul_comm] at hk
        exact Nat.div_lt_of_lt_mul hk
      have hlen := ih (n / 10) (Nat.div_lt_self (by omega) (by omega)) (k - 1) hdiv (by omega)
      simp only [List.length_append, List.length_singleton]
      omega

/-- A decimal digit is none of the delimiter characters the parser scans
for. -/
lemma isDigit_ne {c : Char} (h : c.isDigit = true) :
    c ≠ nlChar ∧ c ≠ nullChar ∧ c ≠ '(' ∧ c ≠ ')' ∧ c ≠ squote ∧ c ≠ ',' ∧ c ≠ ' ' := by
  refine ⟨?_, ?_, ?_, ?_, ?_, ?_, ?_⟩ <;>
    (intro he; subst he; exact absurd h (by decide))

/-! ## Helper lemmas: string scanning -/

lemma isPrefixOf_append_of_le {p l : List Char} (t : List Char) (h : p.length ≤ l.length) :
    (p.isPrefixOf (l ++ t)) = p.isPrefixOf l := by
  rw [Bool.eq_iff_iff]
  simp only [List.isPrefixOf_iff_prefix]
  constructor
  · intro h1
    rw [List.prefix_iff_eq_take] at h1 ⊢
    rwa [List.take_append_of_le_length h] at h1
  · intro h2
    exact h2.trans (l.prefix_append t)

lemma strFind_cons_eq (x : Char) (cs pat : List Char) :
    strFind (x :: cs) pat =
      if pat.isPrefixOf (x :: cs) then some 0 else (strFind cs pat).map (· + 1) := by
  rfl

lemma strFind_append_left {conc pat : List Char} {i : Nat} (tail : List Char)
    (h : strFind conc pat = some i) (hle : i + pat.length ≤ conc.length) :
    strFind (conc ++ tail) pat = some i := by
  induction conc generalizing i with
  | nil =>
    by_cases hp : pat.isPrefixOf ([] : List Char)
    · have hpat : pat = [] := by
        cases pat with
        | nil => rfl
        | cons y ys => simp [List.isPrefixOf] at hp
      subst hpat
      rw [show strFind ([] : List Char) [] = some 0 from rfl] at h
      injection h with h0
      obtain rfl : i = 0 := h0.symm
      cases tail with
      | nil => rfl
      | cons y ys =>
        rw [List.nil_append, strFind_cons_eq, if_pos (by rfl)]
    · simp only [strFind, hp] at h
      simp at h
  | cons x cs ih =>
    by_cases hp : pat.isPrefixOf (x :: cs)
    · rw [strFind_cons_eq, if_pos hp] at h
      simp only [Option.some.injEq] at h
      subst h
      have hlen : pat.length ≤ (x :: cs).length := by
        simpa using hle
      have hp2 : pat.isPrefixOf ((x :: cs) ++ tail) = true := by
        rw [isPrefixOf_append_of_le tail hlen]
        exact hp
      rw [List.cons_append, strFind_cons_eq]
      rw [List.cons_append] at hp2
      rw [if_pos hp2]
    · rw [strFind_cons_eq, if_neg hp] at h
      obtain ⟨j, hj, hij⟩ : ∃ j, strFind cs pat = some j ∧ i = j + 1 := by
        cases hcs : strFind cs pat with
        | none => rw [hcs] at h; simp at h
        | some j => rw [hcs] at h; simp at h; exact ⟨j, rfl, h.symm⟩
      subst hij
      have hle2 : j + pat.length ≤ cs.length := by
        simp only [List.length_cons] at hle
        omega
      have hlen3 : pat.length ≤ (x :: cs).length := by
        simp only [List.length_cons]
        omega
      have hp3 : pat.isPrefixOf ((x :: cs) ++ tail) = false := by
        rw [isPrefixOf_append_of_le tail hlen3]
        exact Bool.eq_false_iff.mpr hp
      rw [List.cons_append, strFind_cons_eq]
      rw [List.cons_append] at hp3
      rw [if_neg (by simp [hp3]), ih hj hle2]
      rfl

lemma findCharIdx_all_ne {l : List Char} {c : Char} (h : ∀ x ∈ l, x ≠ c) :
    findCharIdx l c = none := by
  induction l with
  | nil => rfl
  | cons x tl ih =>
    have hx : x ≠ c := h x (List.mem_cons_self x tl)
    simp only [findCharIdx, if_neg hx]
    rw [ih (fun y hy => h y (List.mem_cons_of_mem x hy))]
    rfl

lemma findCharIdx_append_none {a : List Char} {c : Char} (b : List Char)
    (h : findCharIdx a c = none) :
    findCharIdx (a ++ b) c = (findCharIdx b c).map (· + a.length) := by
  induction a with
  | nil =>
    simp only [List.nil_append, List.length_nil]
    cases findCharIdx b c <;> simp
  | cons x tl ih =>
    simp only [findCharIdx] at h
    by_cases hx : x = c
    · rw [if_pos hx] at h
      simp at h
    · rw [if_neg hx] at h
      have htl : findCharIdx tl c = none := by
        cases hc : findCharIdx tl c with
        | none => rfl
        | some j => rw [hc] at h; simp at h
      rw [List.cons_append]
      simp only [findCharIdx, if_neg hx]
      rw [ih htl]
      cases findCharIdx b c <;> simp
      omega

lemma findCharIdx_append_some {a : List Char} {c : Char} {i : Nat} (b : List Char)
    (h : findCharIdx a c = some i) : findCharIdx (a ++ b) c = some i := by
  induction a generalizing i with
  | nil => simp [findCharIdx] at h
  | cons x tl ih =>
    simp only [findCharIdx] at h
    by_cases hx : x = c
    · rw [if_pos hx] at h
      rw [List.cons_append]
      simp only [findCharIdx, if_pos hx]
      exact h
    · rw [if_neg hx] at h
      obtain ⟨j, hj, hij⟩ : ∃ j, findCharIdx tl c = some j ∧ i = j + 1 := by
        cases hc : findCharIdx tl c with
        | none => rw [hc] at h; simp at h
        | some j => rw [hc] at h; simp at h; exact ⟨j, rfl, h.symm⟩
      subst hij
      rw [List.cons_append]
      simp only [findCharIdx, if_neg hx]
      rw [ih hj]
      rfl

lemma findCharIdx_take {l : List Char} {c : Char} {i : Nat}
    (h : findCharIdx l c = some i) (m : Nat) (hm : i < m) :
    findCharIdx (l.take m) c = some i := by
  induction l generalizing i m with
  | nil => simp [findCharIdx] at h
  | cons x tl ih =>
    cases m with
    | zero => omega
    | succ m2 =>
      simp only [findCharIdx] at h
      rw [List.take_succ_cons]
      by_cases hx : x = c
      · rw [if_pos hx] at h
        simp only [findCharIdx, if_pos hx]
        exact h
      · rw [if_neg hx] at h
        obtain ⟨j, hj, hij⟩ : ∃ j, findCharIdx tl c = some j ∧ i = j + 1 := by
          cases hc : findCharIdx tl c with
          | none => rw [hc] at h; simp at h
          | some j => rw [hc] at h; simp at h; exact ⟨j, rfl, h.symm⟩
        subst hij
        simp only [findCharIdx, if_neg hx]
        rw [ih hj m2 (by omega)]
        rfl

lemma takeWhile_append_all {p : Char → Bool} {a : List Char} (b : List Char)
    (h : ∀ x ∈ a, p x = true) :
    (a ++ b).takeWhile p = a ++ b.takeWhile p := by
  induction a with
  | nil => rfl
  | cons x tl ih =>
    rw [List.cons_append, List.takeWhile_cons,
      if_pos (h x (List.mem_cons_self x tl)), ih (fun y hy => h y (List.mem_cons_of_mem x hy)),
      List.cons_append]

lemma getD_append_right {a b : List Char} (k : Nat) (d : Char) :
    (a ++ b).getD (a.length + k) d = b.getD k d := by
  simp [List.getD, List.getElem?_append_right (by omega : a.length ≤ a.length + k)]

/-! ## Helper lemmas: digit runs and number conversion -/

lemma takeWhile_all {p : Char → Bool} {l : List Char} (h : ∀ x ∈ l, p x = true) :
    l.takeWhile p = l := by
  induction l with
  | nil => rfl
  | cons x tl ih =>
    rw [List.takeWhile_cons, if_pos (h x (List.mem_cons_self x tl)),
      ih (fun y hy => h y (List.mem_cons_of_mem x hy))]

lemma digitRunsAux_append_digits (a : List Char) (b acc : List Char)
    (ha : ∀ c ∈ a, c.isDigit = true) :
    digitRunsAux (a ++ b) acc = digitRunsAux b (a.reverse ++ acc) := by
  induction a generalizing acc with
  | nil => simp
  | cons c cs ih =>
    rw [List.cons_append]
    simp only [digitRunsAux, if_pos (ha c (List.mem_cons_self c cs))]
    rw [ih (c :: acc) (fun y hy => ha y (List.mem_cons_of_mem c hy))]
    congr 1
    simp

lemma digitRunsAux_cons_nondigit_emit (c : Char) (cs acc : List Char)
    (hc : c.isDigit = false) (hacc : acc ≠ []) :
    digitRunsAux (c :: cs) acc = acc.reverse :: digitRunsAux cs [] := by
  simp [digitRunsAux, hc, hacc]

lemma digitRunsAux_cons_nondigit_nil (c : Char) (cs : List Char)
    (hc : c.isDigit = false) :
    digitRunsAux (c :: cs) [] = digitRunsAux cs [] := by
  simp [digitRunsAux, hc]

lemma digitRunsAux_digits_end (a : List Char) (ha : ∀ c ∈ a, c.isDigit = true)
    (hne : a ≠ []) : digitRunsAux a [] = [a] := by
  have h := digitRunsAux_append_digits a [] [] ha
  rw [List.append_nil, List.append_nil] at h
  rw [h]
  simp [digitRunsAux, hne]

/-- The digit runs of the 2-d shape text rendered by save_mat. -/
lemma digitRuns_pair (dr dc : List Char)
    (h1 : ∀ c ∈ dr, c.isDigit = true) (h2 : ∀ c ∈ dc, c.isDigit = true)
    (hn1 : dr ≠ []) (hn2 : dc ≠ []) :
    digitRuns (dr ++ ',' :: ' ' :: dc) = [dr, dc] := by
  unfold digitRuns
  rw [digitRunsAux_append_digits dr _ [] h1, List.append_nil,
    digitRunsAux_cons_nondigit_emit _ _ _ (by decide) (by simp [hn1]),
    List.reverse_reverse,
    digitRunsAux_cons_nondigit_nil _ _ (by decide),
    digitRunsAux_digits_end dc h2 hn2]

/-- The digit runs of the 1-d shape text rendered by save_arr. -/
lemma digitRuns_single (dn : List Char)
    (h1 : ∀ c ∈ dn, c.isDigit = true) (hn : dn ≠ []) :
    digitRuns (dn ++ [',']) = [dn] := by
  unfold digitRuns
  rw [digitRunsAux_append_digits dn _ [] h1, List.append_nil,
    digitRunsAux_cons_nondigit_emit _ _ _ (by decide) (by simp [hn]),
    List.reverse_reverse]
  rfl

lemma stoi_model_digits (a : List Char) (ha : ∀ c ∈ a, c.isDigit = true)
    (hne : a ≠ []) :
    stoi_model a = if parseNat a ≤ 2147483647 then Except.ok (parseNat a)
      else Except.error "stoi: out of range" := by
  cases a with
  | nil => exact absurd rfl hne
  | cons c cs =>
    simp only [stoi_model, if_pos (ha c (List.mem_cons_self c cs))]
    rw [takeWhile_all ha]

lemma atoi_model_single_digit (w : Char) (hw : w.isDigit = true) :
    atoi_model [w] = w.toNat - 48 := by
  simp [atoi_model, List.takeWhile, hw, parseNat]

/-! ## Helper lemmas: evaluating the parser on well-formed streams -/

lemma spaces_mem {n : Nat} {x : Char} (h : x ∈ spaces n) : x = ' ' := by
  simpa [spaces] using (List.eq_of_mem_replicate h)

lemma fhs_eval (d0 : Char) (ds : List Char)
    (hnl : ∀ x ∈ d0 :: ds, x ≠ nlChar) (h0 : d0 ≠ nullChar) :
    find_header_substring (nullChar :: ((d0 :: ds) ++ [nlChar])) =
      (d0 :: ds) ++ [nlChar] := by
  have hsplit : nullChar :: ((d0 :: ds) ++ [nlChar]) =
      (nullChar :: (d0 :: ds)) ++ [nlChar] := rfl
  have hpre : (nullChar :: ((d0 :: ds) ++ [nlChar])).takeWhile (fun c => c ≠ nlChar) =
      nullChar :: (d0 :: ds) := by
    rw [hsplit, takeWhile_append_all [nlChar] ?hall]
    case hall =>
      intro x hx
      rcases List.mem_cons.mp hx with h1 | h2
      · subst h1; decide
      · simp only [decide_eq_true_eq]
        exact hnl x h2
    have : ([nlChar].takeWhile (fun c => decide (c ≠ nlChar))) = [] := by decide
    rw [this, List.append_nil]
  have hfn : findNotIdx (nullChar :: (d0 :: ds)) nullChar = some 1 := by
    simp only [findNotIdx]
    rw [if_neg (by simp), if_pos h0]
    rfl
  unfold find_header_substring
  rw [if_pos (by simp : nlChar ∈ nullChar :: ((d0 :: ds) ++ [nlChar]))]
  rw [hpre, hfn]
  have hlen : (nullChar :: (d0 :: ds)).length + 1 =
      (nullChar :: ((d0 :: ds) ++ [nlChar])).length := by
    simp
  rw [hlen, List.take_length]
  rfl

lemma le4_small {n : Nat} (h : n ≤ 255) :
    le4 n = [Char.ofNat n, nullChar, nullChar, nullChar] := by
  unfold le4 nullChar
  have h1 : n % 256 = n := Nat.mod_eq_of_lt (by omega)
  have h2 : n / 256 = 0 := Nat.div_eq_of_lt (by omega)
  have h3 : n / 65536 = 0 := Nat.div_eq_of_lt (by omega)
  have h4 : n / 16777216 = 0 := Nat.div_eq_of_lt (by omega)
  rw [h1, h2, h3, h4]

lemma findCharIdx_cons_ne {x c : Char} (l : List Char) (h : x ≠ c) :
    findCharIdx (x :: l) c = (findCharIdx l c).map (· + 1) := by
  simp [findCharIdx, h]

/-- Evaluating parse_npy_header on a writer-shaped stream: a version-2.0
prefix whose dictionary holds no newline and does not start with a null
byte, and whose header string fits in the fgets buffer, reduces to
parse_dict on the header string, with the payload untouched. -/
lemma parse_file_eval (d0 : Char) (ds : List Char) (pad : Nat) (payload : List Char)
    (h0 : d0 ≠ nullChar)
    (hnl : ∀ x ∈ d0 :: ds, x ≠ nlChar)
    (hsize : (d0 :: ds).length + pad ≤ 253) :
    parse_npy_header (sMagic ++ verBytes2 ++ le4 ((d0 :: ds) ++ spaces pad ++ [nlChar]).length ++
        ((d0 :: ds) ++ spaces pad ++ [nlChar]) ++ payload) =
      (parse_dict ((d0 :: ds) ++ spaces pad ++ [nlChar])).map (fun h => (h, payload)) := by
  set dict : List Char := d0 :: ds with hdict
  have hslen : (spaces pad).length = pad := by simp [spaces]
  have hhdrlen : (dict ++ spaces pad ++ [nlChar]).length = dict.length + pad + 1 := by
    simp [hslen]
    omega
  have hle4 : le4 (dict ++ spaces pad ++ [nlChar]).length =
      [Char.ofNat (dict.length + pad + 1), nullChar, nullChar, nullChar] := by
    rw [hhdrlen]
    exact le4_small (by omega)
  have hfile : sMagic ++ verBytes2 ++ le4 (dict ++ spaces pad ++ [nlChar]).length ++
      (dict ++ spaces pad ++ [nlChar]) ++ payload =
      (sMagic ++ verBytes2 ++ [Char.ofNat (dict.length + pad + 1), nullChar, nullChar]) ++
      (nullChar :: ((dict ++ spaces pad ++ [nlChar]) ++ payload)) := by
    rw [hle4]
    simp [sMagic, verBytes2]
  have hP11len : (sMagic ++ verBytes2 ++
      [Char.ofNat (dict.length + pad + 1), nullChar, nullChar]).length = 11 := by
    simp [sMagic, verBytes2]
  set R : List Char := nullChar :: ((dict ++ spaces pad ++ [nlChar]) ++ payload) with hR
  set A : List Char := nullChar :: (dict ++ spaces pad ++ [nlChar]) with hA
  have hAlen : A.length = dict.length + pad + 2 := by
    simp [hA, hslen]
    omega
  have hAR : A ++ payload = R := by
    simp [hA, hR]
  -- locating the newline in R
  have hfind : findCharIdx R nlChar = some (dict.length + pad + 1) := by
    have ha : findCharIdx (nlChar :: payload) nlChar = some 0 := by
      simp [findCharIdx]
    have hb : findCharIdx (spaces pad ++ (nlChar :: payload)) nlChar = some pad := by
      rw [findCharIdx_append_none _ (findCharIdx_all_ne
        (fun x hx => by rw [spaces_mem hx]; decide)), ha]
      simp [hslen]
    have hd0 : d0 ≠ nlChar := hnl d0 (List.mem_cons_self d0 ds)
    have hds : findCharIdx (ds ++ (spaces pad ++ (nlChar :: payload))) nlChar =
        some (pad + ds.length) := by
      rw [findCharIdx_append_none _ (findCharIdx_all_ne
        (fun x hx => hnl x (List.mem_cons_of_mem d0 hx))), hb]
      rfl
    have hR2 : R = nullChar :: d0 :: (ds ++ (spaces pad ++ (nlChar :: payload))) := by
      simp [hR, hdict]
    rw [hR2, findCharIdx_cons_ne _ (by decide), findCharIdx_cons_ne _ hd0, hds]
    simp [hdict]
    omega
  have hfg : fgets_255 R = (A, payload) := by
    simp only [fgets_255]
    rw [findCharIdx_take hfind 255 (by omega)]
    have ht : R.take (dict.length + pad + 1 + 1) = A := by
      rw [← hAR, List.take_left' (by omega : A.length = dict.length + pad + 1 + 1)]
    have hd : R.drop (dict.length + pad + 1 + 1) = payload := by
      rw [← hAR, List.drop_left' (by omega : A.length = dict.length + pad + 1 + 1)]
    change (R.take (dict.length + pad + 1 + 1), R.drop (dict.length + pad + 1 + 1)) =
      (A, payload)
    rw [ht, hd]
  have hfhs : find_header_substring A = dict ++ spaces pad ++ [nlChar] := by
    have hnl2 : ∀ x ∈ d0 :: (ds ++ spaces pad), x ≠ nlChar := by
      intro x hx
      rcases List.mem_cons.mp hx with h1 | h2
      · exact h1 ▸ hnl d0 (List.mem_cons_self d0 ds)
      · rcases List.mem_append.mp h2 with h3 | h4
        · exact hnl x (List.mem_cons_of_mem d0 h3)
        · rw [spaces_mem h4]; decide
    have h3 : A = nullChar :: ((d0 :: (ds ++ spaces pad)) ++ [nlChar]) := by
      simp [hA, hdict]
    rw [h3, fhs_eval d0 (ds ++ spaces pad) hnl2 h0]
    rw [hdict]
    simp
  have hlast : (dict ++ spaces pad ++ [nlChar]).getLast? = some nlChar :=
    List.getLast?_concat _
  -- now evaluate parse_npy_header
  rw [hfile]
  simp only [parse_npy_header]
  rw [if_neg (by rw [List.length_append, hP11len]; omega)]
  rw [← hP11len]
  rw [List.drop_left]
  rw [if_neg (by simp [hR] : ¬ (R = []))]
  simp only [hfg]
  rw [hfhs]
  rw [if_neg (by simp [hlast])]

/-- Evaluating parse_dict on a header of the exact shape both writers emit:
a descr token [e, L, w], the fortran_order literal of `f`, and a shape text
`shapeContent` between the parentheses.  The result reduces to the
std::stoi conversion of the digit runs of the shape text. -/
lemma parse_dict_eval (e L w : Char) (f : Bool) (shapeContent : List Char) (pad : Nat)
    (hf1 : strFind (sDescrPrefix ++ [e, L, w] ++ sFortranMid) fortranKey = some 18)
    (hf2 : strFind (sDescrPrefix ++ [e, L, w] ++ sFortranMid) descrKey = some 2)
    (hpa : findCharIdx (sDescrPrefix ++ [e, L, w] ++ sFortranMid) '(' = none)
    (hpb : findCharIdx (sDescrPrefix ++ [e, L, w] ++ sFortranMid) ')' = none)
    (he : e = '<' ∨ e = '|')
    (hw : w.isDigit = true)
    (hsc : ∀ x ∈ shapeContent, x ≠ '(' ∧ x ≠ ')') :
    parse_dict ((sDescrPrefix ++ [e, L, w] ++ sFortranMid ++
        (if f then sTrue else sFalse) ++ sShapeMid ++ shapeContent ++ sMatClose) ++
        spaces pad ++ [nlChar]) =
      match (digitRuns shapeContent).mapM stoi_model with
      | Except.error msg => Except.error msg
      | Except.ok shape => Except.ok ⟨w.toNat - 48, shape, f⟩ := by
  set C : List Char := sDescrPrefix ++ [e, L, w] ++ sFortranMid with hC
  set fstr : List Char := if f then sTrue else sFalse with hfstr
  have hClen : C.length = 34 := by simp [hC, sDescrPrefix, sFortranMid]
  have hfl : fstr.length = 4 ∨ fstr.length = 5 := by
    cases f <;> simp [hfstr, sTrue, sFalse]
  set T : List Char := fstr ++ (sShapeMid ++ (shapeContent ++ (sMatClose ++
    (spaces pad ++ [nlChar])))) with hT
  have hH : (C ++ fstr ++ sShapeMid ++ shapeContent ++ sMatClose) ++
      spaces pad ++ [nlChar] = C ++ T := by
    simp [hT, List.append_assoc]
  have hHlen : (C ++ T).length = 34 + T.length := by
    rw [List.length_append, hClen]
  have hTlen : T.length = fstr.length + 12 + shapeContent.length + 4 + pad + 1 := by
    simp [hT, sShapeMid, sMatClose, spaces]
    omega
  -- fortran_order key
  have hfort : strFind (C ++ T) fortranKey = some 18 :=
    strFind_append_left T hf1 (by rw [hClen]; decide)
  have hlen1 : ¬ ((C ++ T).length < 18 + 16) := by
    rw [hHlen]
    omega
  -- the fortran_order value
  have hfo : decide ((((C ++ T).drop (18 + 16)).take 4) = trueLit) = f := by
    have hdrop : (C ++ T).drop (18 + 16) = T := by
      exact List.drop_left' (by rw [hClen])
    rw [hdrop, hT]
    cases f with
    | true =>
      have hft : fstr = sTrue := by rw [hfstr]; decide
      rw [hft, List.take_left' (by decide : sTrue.length = 4)]
      decide
    | false =>
      have hff : fstr = sFalse := by rw [hfstr]; decide
      rw [hff, List.take_append_of_le_length (by decide : 4 ≤ sFalse.length)]
      decide
  -- the parentheses
  have hsm : sShapeMid = [',', ' ', squote, 's','h','a','p','e', squote, ':', ' '] ++ ['('] := by
    decide
  have hfstr_ne : ∀ x ∈ fstr, x ≠ '(' ∧ x ≠ ')' := by
    cases f <;> (rw [hfstr]; decide)
  have hp1 : findCharIdx (C ++ T) '(' = some (fstr.length + 45) := by
    rw [hT, hsm]
    rw [findCharIdx_append_none _ hpa]
    rw [findCharIdx_append_none _ (findCharIdx_all_ne (fun x hx => (hfstr_ne x hx).1))]
    rw [List.append_assoc]
    rw [findCharIdx_append_none _ (by decide)]
    rw [show findCharIdx (['('] ++ (shapeContent ++ (sMatClose ++ (spaces pad ++ [nlChar])))) '(' =
      some 0 from by simp [findCharIdx]]
    rw [hClen]
    simp
    omega
  have hp2 : findCharIdx (C ++ T) ')' = some (fstr.length + 46 + shapeContent.length) := by
    rw [hT, hsm]
    rw [findCharIdx_append_none _ hpb]
    rw [findCharIdx_append_none _ (findCharIdx_all_ne (fun x hx => (hfstr_ne x hx).2))]
    rw [List.append_assoc]
    rw [findCharIdx_append_none _ (by decide)]
    rw [show (['('] ++ (shapeContent ++ (sMatClose ++ (spaces pad ++ [nlChar])))) =
      '(' :: (shapeContent ++ (sMatClose ++ (spaces pad ++ [nlChar]))) from rfl]
    rw [findCharIdx_cons_ne _ (by decide)]
    rw [findCharIdx_append_none _ (findCharIdx_all_ne (fun x hx => (hsc x hx).2))]
    rw [show findCharIdx (sMatClose ++ (spaces pad ++ [nlChar])) ')' = some 0 from by
      rw [sMatClose]; simp [findCharIdx]]
    rw [hClen]
    simp
    omega
  -- the shape text between the parentheses
  have hshape_str : ((C ++ T).drop (fstr.length + 45 + 1)).take
      (if fstr.length + 45 + 1 ≤ fstr.length + 46 + shapeContent.length
        then fstr.length + 46 + shapeContent.length - (fstr.length + 45 + 1)
        else (C ++ T).length - (fstr.length + 45 + 1)) = shapeContent := by
    rw [if_pos (by omega)]
    have harr : C ++ T = (C ++ (fstr ++ ([',', ' ', squote, 's','h','a','p','e', squote, ':', ' '] ++ ['(']))) ++
        (shapeContent ++ (sMatClose ++ (spaces pad ++ [nlChar]))) := by
      rw [hT, hsm]
      simp [List.append_assoc]
    rw [harr]
    rw [List.drop_left' (by simp [hClen]; omega :
      (C ++ (fstr ++ ([',', ' ', squote, 's','h','a','p','e', squote, ':', ' '] ++ ['(']))).length =
        fstr.length + 45 + 1)]
    rw [show fstr.length + 46 + shapeContent.length - (fstr.length + 45 + 1) =
      shapeContent.length from by omega]
    exact List.take_left' rfl
  -- descr
  have hdescr : strFind (C ++ T) descrKey = some 2 :=
    strFind_append_left T hf2 (by rw [hClen]; decide)
  have hgetd : (C ++ T).getD (2 + 9) nullChar = e := by
    have harr : C ++ T = sDescrPrefix ++ (e :: (L :: ([w] ++ (sFortranMid ++ T)))) := by
      rw [hC]
      simp [List.append_assoc]
    rw [harr]
    rw [show (2 + 9 : Nat) = sDescrPrefix.length + 0 from by simp [sDescrPrefix]]
    rw [getD_append_right]
    rfl
  have hlen2 : ¬ ((C ++ T).length < 2 + 11) := by
    rw [hHlen]
    omega
  -- the word-size text
  have hws : ((C ++ T).drop (2 + 11)).take
      ((findCharIdx ((C ++ T).drop (2 + 11)) squote).getD ((C ++ T).drop (2 + 11)).length) =
      [w] := by
    have harr : C ++ T = (sDescrPrefix ++ [e, L]) ++ (w :: (sFortranMid ++ T)) := by
      rw [hC]
      simp [List.append_assoc]
    have hdrop : (C ++ T).drop (2 + 11) = w :: (sFortranMid ++ T) := by
      rw [harr]
      exact List.drop_left' (by simp [sDescrPrefix])
    rw [hdrop]
    have hwq : w ≠ squote := by
      intro hcontra
      subst hcontra
      exact absurd hw (by decide)
    rw [findCharIdx_cons_ne _ hwq]
    rw [show findCharIdx (sFortranMid ++ T) squote = some 0 from by
      rw [sFortranMid]; simp [findCharIdx]]
    rfl
  -- put everything together
  rw [hH]
  simp only [parse_dict, hfort, if_neg hlen1, hp1, hp2, hshape_str, hdescr, hgetd,
    if_pos he, if_neg hlen2, hws, hfo, atoi_model_single_digit w hw]

lemma parse_file_eval2 (dict : List Char) (pad : Nat) (payload : List Char)
    (hhd : ∃ ds, dict = lbrace :: ds)
    (hnl : ∀ x ∈ dict, x ≠ nlChar)
    (hsize : dict.length + pad ≤ 253) :
    parse_npy_header (sMagic ++ verBytes2 ++ le4 (dict ++ spaces pad ++ [nlChar]).length ++
        (dict ++ spaces pad ++ [nlChar]) ++ payload) =
      (parse_dict (dict ++ spaces pad ++ [nlChar])).map (fun h => (h, payload)) := by
  obtain ⟨ds, rfl⟩ := hhd
  exact parse_file_eval lbrace ds pad payload (by decide) hnl hsize

/-- Parsing the full byte stream produced by the writers, for an arbitrary
descr token [e, L, w] and shape text: the result is determined by the
stoi conversion of the digit runs of the shape text. -/
lemma parse_emitted_core (e L w : Char) (f : Bool) (shapeContent payload : List Char)
    (hf1 : strFind (sDescrPrefix ++ [e, L, w] ++ sFortranMid) fortranKey = some 18)
    (hf2 : strFind (sDescrPrefix ++ [e, L, w] ++ sFortranMid) descrKey = some 2)
    (hpa : findCharIdx (sDescrPrefix ++ [e, L, w] ++ sFortranMid) '(' = none)
    (hpb : findCharIdx (sDescrPrefix ++ [e, L, w] ++ sFortranMid) ')' = none)
    (he : e = '<' ∨ e = '|')
    (hw : w.isDigit = true)
    (hLnl : L ≠ nlChar)
    (hsc3 : ∀ x ∈ shapeContent, x ≠ '(' ∧ x ≠ ')' ∧ x ≠ nlChar)
    (pad : Nat)
    (hbound : shapeContent.length + pad ≤ 198) :
    parse_npy_header (sMagic ++ verBytes2 ++
        le4 ((sDescrPrefix ++ [e, L, w] ++ sFortranMid ++ (if f then sTrue else sFalse) ++
          sShapeMid ++ shapeContent ++ sMatClose) ++ spaces pad ++ [nlChar]).length ++
        ((sDescrPrefix ++ [e, L, w] ++ sFortranMid ++ (if f then sTrue else sFalse) ++
          sShapeMid ++ shapeContent ++ sMatClose) ++ spaces pad ++ [nlChar]) ++ payload) =
      match (digitRuns shapeContent).mapM stoi_model with
      | Except.error msg => Except.error msg
      | Except.ok shape => Except.ok (⟨w.toNat - 48, shape, f⟩, payload) := by
  have henl : e ≠ nlChar := by
    rcases he with h | h <;> (subst h; decide)
  have hwnl : w ≠ nlChar := (isDigit_ne hw).1
  have hdnl : ∀ x ∈ sDescrPrefix ++ [e, L, w] ++ sFortranMid ++
      (if f then sTrue else sFalse) ++ sShapeMid ++ shapeContent ++ sMatClose,
      x ≠ nlChar := by
    intro x hx
    simp only [List.append_assoc, List.mem_append] at hx
    rcases hx with h | h | h | h | h | h | h
    · revert h; revert x; decide
    · rcases List.mem_cons.mp h with h1 | h1
      · exact h1 ▸ henl
      rcases List.mem_cons.mp h1 with h2 | h2
      · exact h2 ▸ hLnl
      rcases List.mem_cons.mp h2 with h3 | h3
      · exact h3 ▸ hwnl
      · simp at h3
    · revert h; revert x; decide
    · revert h; revert x
      cases f <;> decide
    · revert h; revert x; decide
    · exact (hsc3 x h).2.2
    · revert h; revert x; decide
  have hflen : (if f then sTrue else sFalse).length ≤ 5 := by
    cases f <;> decide
  have hdlen : (sDescrPrefix ++ [e, L, w] ++ sFortranMid ++
      (if f then sTrue else sFalse) ++ sShapeMid ++ shapeContent ++ sMatClose).length =
      50 + (if f then sTrue else sFalse).length + shapeContent.length := by
    simp [sDescrPrefix, sFortranMid, sShapeMid, sMatClose]
    omega
  have hhd : ∃ ds, (sDescrPrefix ++ [e, L, w] ++ sFortranMid ++
      (if f then sTrue else sFalse) ++ sShapeMid ++ shapeContent ++ sMatClose) =
      lbrace :: ds := ⟨_, rfl⟩
  rw [parse_file_eval2 (sDescrPrefix ++ [e, L, w] ++ sFortranMid ++
    (if f then sTrue else sFalse) ++ sShapeMid ++ shapeContent ++ sMatClose)
    pad payload hhd hdnl (by rw [hdlen]; omega)]
  rw [parse_dict_eval e L w f shapeContent pad hf1 hf2 hpa hpb he hw
    (fun x hx => ⟨(hsc3 x hx).1, (hsc3 x hx).2.1⟩)]
  cases hX : (digitRuns shapeContent).mapM stoi_model <;> simp [Except.map]


lemma mapM_stoi_pair (a b : List Char) (x y : Nat)
    (ha : stoi_model a = Except.ok x) (hb : stoi_model b = Except.ok y) :
    List.mapM stoi_model [a, b] = Except.ok [x, y] := by
  simp [List.mapM, List.mapM.loop, ha, hb, Bind.bind, Except.bind, Pure.pure, Except.pure]

lemma mapM_stoi_single (a : List Char) (x : Nat)
    (ha : stoi_model a = Except.ok x) :
    List.mapM stoi_model [a] = Except.ok [x] := by
  simp [List.mapM, List.mapM.loop, ha, Bind.bind, Except.bind, Pure.pure, Except.pure]

lemma stoi_toDecimal (n : Nat) (h : n ≤ 2147483647) :
    stoi_model (toDecimal n) = Except.ok n := by
  rw [stoi_model_digits _ (toDecimal_all_digits n) (toDecimal_ne_nil n),
    parseNat_toDecimal, if_pos h]

lemma toDecimal_le_ten {n : Nat} (h : n ≤ 2147483647) : (toDecimal n).length ≤ 10 := by
  have h10 : (10 : Nat) ^ 10 = 10000000000 := by norm_num
  exact toDecimal_length_le n 10 (by omega) (by omega)

lemma toDecimal_sc3 (n : Nat) : ∀ x ∈ toDecimal n, x ≠ '(' ∧ x ≠ ')' ∧ x ≠ nlChar := by
  intro x hx
  have hd := toDecimal_all_digits n x hx
  have h := isDigit_ne hd
  exact ⟨h.2.2.1, h.2.2.2.1, h.1⟩

/-- Round trip for the 2-d writer with an arbitrary supported descr token. -/
lemma save_mat_parse_aux (e L w : Char) (f : Bool) (r c : Nat) (payload : List Char)
    (hf1 : strFind (sDescrPrefix ++ [e, L, w] ++ sFortranMid) fortranKey = some 18)
    (hf2 : strFind (sDescrPrefix ++ [e, L, w] ++ sFortranMid) descrKey = some 2)
    (hpa : findCharIdx (sDescrPrefix ++ [e, L, w] ++ sFortranMid) '(' = none)
    (hpb : findCharIdx (sDescrPrefix ++ [e, L, w] ++ sFortranMid) ')' = none)
    (he : e = '<' ∨ e = '|')
    (hw : w.isDigit = true)
    (hLnl : L ≠ nlChar)
    (hr : r ≤ 2147483647) (hc : c ≤ 2147483647) :
    parse_npy_header (sMagic ++ verBytes2 ++
        le4 ((sDescrPrefix ++ [e, L, w] ++ sFortranMid ++ (if f then sTrue else sFalse) ++
            sShapeMid ++ toDecimal r ++ sCommaSpace ++ toDecimal c ++ sMatClose) ++
          spaces (16 - (10 + (sDescrPrefix ++ [e, L, w] ++ sFortranMid ++
            (if f then sTrue else sFalse) ++ sShapeMid ++ toDecimal r ++ sCommaSpace ++
            toDecimal c ++ sMatClose).length) % 16) ++ [nlChar]).length ++
        ((sDescrPrefix ++ [e, L, w] ++ sFortranMid ++ (if f then sTrue else sFalse) ++
            sShapeMid ++ toDecimal r ++ sCommaSpace ++ toDecimal c ++ sMatClose) ++
          spaces (16 - (10 + (sDescrPrefix ++ [e, L, w] ++ sFortranMid ++
            (if f then sTrue else sFalse) ++ sShapeMid ++ toDecimal r ++ sCommaSpace ++
            toDecimal c ++ sMatClose).length) % 16) ++ [nlChar]) ++ payload) =
      Except.ok (⟨w.toNat - 48, [r, c], f⟩, payload) := by
  have hre : sDescrPrefix ++ [e, L, w] ++ sFortranMid ++ (if f then sTrue else sFalse) ++
      sShapeMid ++ toDecimal r ++ sCommaSpace ++ toDecimal c ++ sMatClose =
      sDescrPrefix ++ [e, L, w] ++ sFortranMid ++ (if f then sTrue else sFalse) ++
      sShapeMid ++ (toDecimal r ++ sCommaSpace ++ toDecimal c) ++ sMatClose := by
    simp [List.append_assoc]
  rw [hre]
  have hsc3 : ∀ x ∈ toDecimal r ++ sCommaSpace ++ toDecimal c,
      x ≠ '(' ∧ x ≠ ')' ∧ x ≠ nlChar := by
    intro x hx
    simp only [List.append_assoc, List.mem_append] at hx
    rcases hx with h | h | h
    · exact toDecimal_sc3 r x h
    · revert h; revert x; decide
    · exact toDecimal_sc3 c x h
  have hsclen : (toDecimal r ++ sCommaSpace ++ toDecimal c).length ≤ 22 := by
    have h1 := toDecimal_le_ten hr
    have h2 := toDecimal_le_ten hc
    simp [sCommaSpace]
    omega
  rw [parse_emitted_core e L w f (toDecimal r ++ sCommaSpace ++ toDecimal c) payload
    hf1 hf2 hpa hpb he hw hLnl hsc3 _ (by omega)]
  have hassoc : toDecimal r ++ sCommaSpace ++ toDecimal c =
      toDecimal r ++ ',' :: ' ' :: toDecimal c := by
    simp [sCommaSpace]
  rw [hassoc, digitRuns_pair _ _ (toDecimal_all_digits r) (toDecimal_all_digits c)
    (toDecimal_ne_nil r) (toDecimal_ne_nil c)]
  rw [mapM_stoi_pair _ _ r c (stoi_toDecimal r hr) (stoi_toDecimal c hc)]

/-- Round trip for the 1-d writer with an arbitrary supported descr token. -/
lemma save_arr_parse_aux (e L w : Char) (n : Nat) (payload : List Char)
    (hf1 : strFind (sDescrPrefix ++ [e, L, w] ++ sFortranMid) fortranKey = some 18)
    (hf2 : strFind (sDescrPrefix ++ [e, L, w] ++ sFortranMid) descrKey = some 2)
    (hpa : findCharIdx (sDescrPrefix ++ [e, L, w] ++ sFortranMid) '(' = none)
    (hpb : findCharIdx (sDescrPrefix ++ [e, L, w] ++ sFortranMid) ')' = none)
    (he : e = '<' ∨ e = '|')
    (hw : w.isDigit = true)
    (hLnl : L ≠ nlChar)
    (hn : n ≤ 2147483647) :
    parse_npy_header (sMagic ++ verBytes2 ++
        le4 ((sDescrPrefix ++ [e, L, w] ++ sFortranMid ++ sFalse ++ sShapeMid ++
            toDecimal n ++ sArrClose) ++
          spaces (16 - (10 + (sDescrPrefix ++ [e, L, w] ++ sFortranMid ++ sFalse ++
            sShapeMid ++ toDecimal n ++ sArrClose).length) % 16) ++ [nlChar]).length ++
        ((sDescrPrefix ++ [e, L, w] ++ sFortranMid ++ sFalse ++ sShapeMid ++
            toDecimal n ++ sArrClose) ++
          spaces (16 - (10 + (sDescrPrefix ++ [e, L, w] ++ sFortranMid ++ sFalse ++
            sShapeMid ++ toDecimal n ++ sArrClose).length) % 16) ++ [nlChar]) ++ payload) =
      Except.ok (⟨w.toNat - 48, [n], false⟩, payload) := by
  have hre : sDescrPrefix ++ [e, L, w] ++ sFortranMid ++ sFalse ++ sShapeMid ++
      toDecimal n ++ sArrClose =
      sDescrPrefix ++ [e, L, w] ++ sFortranMid ++ (if false = true then sTrue else sFalse) ++
      sShapeMid ++ (toDecimal n ++ [',']) ++ sMatClose := by
    simp [sArrClose, sMatClose, List.append_assoc]
  rw [hre]
  have hsc3 : ∀ x ∈ toDecimal n ++ [','], x ≠ '(' ∧ x ≠ ')' ∧ x ≠ nlChar := by
    intro x hx
    simp only [List.mem_append] at hx
    rcases hx with h | h
    · exact toDecimal_sc3 n x h
    · rw [List.mem_singleton] at h
      subst h
      decide
  have hsclen : (toDecimal n ++ [',']).length ≤ 11 := by
    have h1 := toDecimal_le_ten hn
    simp
    omega
  rw [parse_emitted_core e L w false (toDecimal n ++ [',']) payload
    hf1 hf2 hpa hpb he hw hLnl hsc3 _ (by omega)]
  rw [digitRuns_single _ (toDecimal_all_digits n) (toDecimal_ne_nil n)]
  rw [mapM_stoi_single _ n (stoi_toDecimal n hn)]

/-! ## Claim theorems -/

/-- C1 (amended): header round-trip.  For every supported element kind,
every fortran_order flag and every rank-2 shape written by save_mat, and
every rank-1 shape written by save_arr, parsing the emitted stream recovers
exactly the word_size, shape and fortran_order of the descriptor — provided
every dimension is at most INT_MAX (2147483647): the parser extracts the
dimensions with std::stoi, which throws out_of_range beyond int. -/
theorem c1_header_roundtrip :
    (∀ (t : CppType) (f : Bool) (r c : Nat) (payload file : List Char),
      save_mat_file t f r c payload = some file →
      r ≤ 2147483647 → c ≤ 2147483647 →
      parse_npy_header file = Except.ok (⟨sizeof_t t, [r, c], f⟩, payload)) ∧
    (∀ (t : CppType) (n : Nat) (payload file : List Char),
      save_arr_file t n payload = some file →
      n ≤ 2147483647 →
      parse_npy_header file = Except.ok (⟨sizeof_t t, [n], false⟩, payload)) := by
  constructor
  · intro t f r c payload file hsave hr hc
    cases t with
    | other sz => simp [save_mat_file, save_mat_header, dtype_of] at hsave
    | float =>
      simp only [save_mat_file, save_mat_header, dtype_of, Option.map_some',
        Option.some.injEq] at hsave
      subst hsave
      have haux := save_mat_parse_aux '<' 'f' '4' f r c payload (by decide) (by decide)
        (by decide) (by decide) (Or.inl rfl) (by decide) (by decide) hr hc
      rw [show ('4'.toNat - 48 : Nat) = 4 from by decide] at haux
      exact haux
    | double =>
      simp only [save_mat_file, save_mat_header, dtype_of, Option.map_some',
        Option.some.injEq] at hsave
      subst hsave
      have haux := save_mat_parse_aux '<' 'f' '8' f r c payload (by decide) (by decide)
        (by decide) (by decide) (Or.inl rfl) (by decide) (by decide) hr hc
      rw [show ('8'.toNat - 48 : Nat) = 8 from by decide] at haux
      exact haux
    | int8 =>
      simp only [save_mat_file, save_mat_header, dtype_of, Option.map_some',
        Option.some.injEq] at hsave
      subst hsave
      have haux := save_mat_parse_aux '|' 'i' '1' f r c payload (by decide) (by decide)
        (by decide) (by decide) (Or.inr rfl) (by decide) (by decide) hr hc
      rw [show ('1'.toNat - 48 : Nat) = 1 from by decide] at haux
      exact haux
    | int16 =>
      simp only [save_mat_file, save_mat_header, dtype_of, Option.map_some',
        Option.some.injEq] at hsave
      subst hsave
      have haux := save_mat_parse_aux '<' 'i' '2' f r c payload (by decide) (by decide)
        (by decide) (by decide) (Or.inl rfl) (by decide) (by decide) hr hc
      rw [show ('2'.toNat - 48 : Nat) = 2 from by decide] at haux
      exact haux
    | int32 =>
      simp only [save_mat_file, save_mat_header, dtype_of, Option.map_some',
        Option.some.injEq] at hsave
      subst hsave
      have haux := save_mat_parse_aux '<' 'i' '4' f r c payload (by decide) (by decide)
        (by decide) (by decide) (Or.inl rfl) (by decide) (by decide) hr hc
      rw [show ('4'.toNat - 48 : Nat) = 4 from by decide] at haux
      exact haux
    | int64 =>
      simp only [save_mat_file, save_mat_header, dtype_of, Option.map_some',
        Option.some.injEq] at hsave
      subst hsave
      have haux := save_mat_parse_aux '<' 'i' '8' f r c payload (by decide) (by decide)
        (by decide) (by decide) (Or.inl rfl) (by decide) (by decide) hr hc
      rw [show ('8'.toNat - 48 : Nat) = 8 from by decide] at haux
      exact haux
    | uint8 =>
      simp only [save_mat_file, save_mat_header, dtype_of, Option.map_some',
        Option.some.injEq] at hsave
      subst hsave
      have haux := save_mat_parse_aux '|' 'u' '1' f r c payload (by decide) (by decide)
        (by decide) (by decide) (Or.inr rfl) (by decide) (by decide) hr hc
      rw [show ('1'.toNat - 48 : Nat) = 1 from by decide] at haux
      exact haux
    | uint16 =>
      simp only [save_mat_file, save_mat_header, dtype_of, Option.map_some',
        Option.some.injEq] at hsave
      subst hsave
      have haux := save_mat_parse_aux '<' 'u' '2' f r c payload (by decide) (by decide)
        (by decide) (by decide) (Or.inl rfl) (by decide) (by decide) hr hc
      rw [show ('2'.toNat - 48 : Nat) = 2 from by decide] at haux
      exact haux
    | uint32 =>
      simp only [save_mat_file, save_mat_header, dtype_of, Option.map_some',
        Option.some.injEq] at hsave
      subst hsave
      have haux := save_mat_parse_aux '<' 'u' '4' f r c payload (by decide) (by decide)
        (by decide) (by decide) (Or.inl rfl) (by decide) (by decide) hr hc
      rw [show ('4'.toNat - 48 : Nat) = 4 from by decide] at haux
      exact haux
    | uint64 =>
      simp only [save_mat_file, save_mat_header, dtype_of, Option.map_some',
        Option.some.injEq] at hsave
      subst hsave
      have haux := save_mat_parse_aux '<' 'u' '8' f r c payload (by decide) (by decide)
        (by decide) (by decide) (Or.inl rfl) (by decide) (by decide) hr hc
      rw [show ('8'.toNat - 48 : Nat) = 8 from by decide] at haux
      exact haux
  · intro t n payload file hsave hn
    cases t with
    | other sz => simp [save_arr_file, save_arr_header, dtype_of] at hsave
    | float =>
      simp only [save_arr_file, save_arr_header, dtype_of, Option.map_some',
        Option.some.injEq] at hsave
      subst hsave
      have haux := save_arr_parse_aux '<' 'f' '4' n payload (by decide) (by decide)
        (by decide) (by decide) (Or.inl rfl) (by decide) (by decide) hn
      rw [show ('4'.toNat - 48 : Nat) = 4 from by decide] at haux
      exact haux
    | double =>
      simp only [save_arr_file, save_arr_header, dtype_of, Option.map_some',
        Option.some.injEq] at hsave
      subst hsave
      have haux := save_arr_parse_aux '<' 'f' '8' n payload (by decide) (by decide)
        (by decide) (by decide) (Or.inl rfl) (by decide) (by decide) hn
      rw [show ('8'.toNat - 48 : Nat) = 8 from by decide] at haux
      exact haux
    | int8 =>
      simp only [save_arr_file, save_arr_header, dtype_of, Option.map_some',
        Option.some.injEq] at hsave
      subst hsave
      have haux := save_arr_parse_aux '|' 'i' '1' n payload (by decide) (by decide)
        (by decide) (by decide) (Or.inr rfl) (by decide) (by decide) hn
      rw [show ('1'.toNat - 48 : Nat) = 1 from by decide] at haux
      exact haux
    | int16 =>
      simp only [save_arr_file, save_arr_header, dtype_of, Option.map_some',
        Option.some.injEq] at hsave
      subst hsave
      have haux := save_arr_parse_aux '<' 'i' '2' n payload (by decide) (by decide)
        (by decide) (by decide) (Or.inl rfl) (by decide) (by decide) hn
      rw [show ('2'.toNat - 48 : Nat) = 2 from by decide] at haux
      exact haux
    | int32 =>
      simp only [save_arr_file, save_arr_header, dtype_of, Option.map_some',
        Option.some.injEq] at hsave
      subst hsave
      have haux := save_arr_parse_aux '<' 'i' '4' n payload (by decide) (by decide)
        (by decide) (by decide) (Or.inl rfl) (by decide) (by decide) hn
      rw [show ('4'.toNat - 48 : Nat) = 4 from by decide] at haux
      exact haux
    | int64 =>
      simp only [save_arr_file, save_arr_header, dtype_of, Option.map_some',
        Option.some.injEq] at hsave
      subst hsave
      have haux := save_arr_parse_aux '<' 'i' '8' n payload (by decide) (by decide)
        (by decide) (by decide) (Or.inl rfl) (by decide) (by decide) hn
      rw [show ('8'.toNat - 48 : Nat) = 8 from by decide] at haux
      exact haux
    | uint8 =>
      simp only [save_arr_file, save_arr_header, dtype_of, Option.map_some',
        Option.some.injEq] at hsave
      subst hsave
      have haux := save_arr_parse_aux '|' 'u' '1' n payload (by decide) (by decide)
        (by decide) (by decide) (Or.inr rfl) (by decide) (by decide) hn
      rw [show ('1'.toNat - 48 : Nat) = 1 from by decide] at haux
      exact haux
    | uint16 =>
      simp only [save_arr_file, save_arr_header, dtype_of, Option.map_some',
        Option.some.injEq] at hsave
      subst hsave
      have haux := save_arr_parse_aux '<' 'u' '2' n payload (by decide) (by decide)
        (by decide) (by decide) (Or.inl rfl) (by decide) (by decide) hn
      rw [show ('2'.toNat - 48 : Nat) = 2 from by decide] at haux
      exact haux
    | uint32 =>
      simp only [save_arr_file, save_arr_header, dtype_of, Option.map_some',
        Option.some.injEq] at hsave
      subst hsave
      have haux := save_arr_parse_aux '<' 'u' '4' n payload (by decide) (by decide)
        (by decide) (by decide) (Or.inl rfl) (by decide) (by decide) hn
      rw [show ('4'.toNat - 48 : Nat) = 4 from by decide] at haux
      exact haux
    | uint64 =>
      simp only [save_arr_file, save_arr_header, dtype_of, Option.map_some',
        Option.some.injEq] at hsave
      subst hsave
      have haux := save_arr_parse_aux '<' 'u' '8' n payload (by decide) (by decide)
        (by decide) (by decide) (Or.inl rfl) (by decide) (by decide) hn
      rw [show ('8'.toNat - 48 : Nat) = 8 from by decide] at haux
      exact haux

/-- C1 witness: a concrete 2x3 double matrix, column-major, round-trips. -/
theorem c1_header_roundtrip_witness :
    parse_npy_header ((save_mat_file CppType.double true 2 3 []).getD []) =
      Except.ok (⟨8, [2, 3], true⟩, []) :=
  c1_header_roundtrip.1 CppType.double true 2 3 [] _ (by decide) (by decide) (by decide)

/-- C1 counterexample to the claim as stated: for the shape (2147483648, 1)
— a dimension one past INT_MAX — parsing the emitted header does not
recover the descriptor: std::stoi throws out_of_range. -/
theorem c1_header_roundtrip_counterexample :
    (save_mat_file CppType.double false 2147483648 1 []).map parse_npy_header =
      some (Except.error "stoi: out of range") := by decide

/-- C2: the writers' comment says the header is aligned to a 16-byte
boundary, but the emitted prefix (magic + version + 4-byte length field +
dictionary + padding + newline) of save_arr<double> for 3 elements, and of
save_mat<float> for a 2x3 matrix, is 83 bytes, not divisible by 16: the
padding formula uses the version-1 overhead of 10 bytes although 12 are
written, and does not count the newline, so every emitted prefix is
congruent to 3 mod 16. -/
theorem c2_alignment_failure :
    ((save_arr_file CppType.double 3 []).map List.length = some 83 ∧ ¬ (16 ∣ 83)) ∧
    ((save_mat_file CppType.float false 2 3 []).map List.length = some 83 ∧
      ¬ (16 ∣ 83)) := by decide

/-- C3 counterexample: a stream whose first six bytes are ASCII letters
rather than the magic parses successfully; the parser reads and discards
the first 11 bytes without comparing them to anything. -/
theorem c3_magic_counterexample :
    parse_npy_header badMagicFile = Except.ok (⟨8, [3], false⟩, []) := by decide

/-- C3 (amended): the parser never inspects the first 11 bytes of the
stream: as long as the remainder is nonempty, its result is independent of
them, so a corrupted magic is not rejected. -/
theorem c3_parser_ignores_first_bytes :
    ∀ (m1 m2 rest : List Char), m1.length = 11 → m2.length = 11 → rest ≠ [] →
      parse_npy_header (m1 ++ rest) = parse_npy_header (m2 ++ rest) := by
  intro m1 m2 rest h1 h2 hne
  have hl1 : ¬ ((m1 ++ rest).length < 11) := by simp [h1]
  have hl2 : ¬ ((m2 ++ rest).length < 11) := by simp [h2]
  have hd1 : (m1 ++ rest).drop 11 = rest := by rw [← h1]; exact List.drop_left m1 rest
  have hd2 : (m2 ++ rest).drop 11 = rest := by rw [← h2]; exact List.drop_left m2 rest
  simp only [parse_npy_header, hd1, hd2, if_neg hl1, if_neg hl2, if_neg hne]

/-- C3 witness: two streams differing in all of the first 11 bytes parse
identically. -/
theorem c3_parser_ignores_first_bytes_witness :
    parse_npy_header (List.replicate 11 'A' ++ [nlChar]) =
      parse_npy_header (List.replicate 11 'B' ++ [nlChar]) :=
  c3_parser_ignores_first_bytes _ _ _ (by decide) (by decide) (by decide)

/-- C4: the reader accepts both layouts.  A well-formed v1.0 stream
(2-byte length field, dictionary at offset 10) holding 8 float64 elements
loads with word_size 8, shape [8], fortran_order false, and so does the
v2.0 stream emitted by save_arr<double> (4-byte length field, dictionary
at offset 12). -/
theorem c4_version_acceptance :
    npy_load_model (some v1File) =
      (Except.ok ⟨[8], 8, false, List.replicate 64 nullChar⟩, false) ∧
    npy_load_model
        (some ((save_arr_file CppType.double 8 (List.replicate 64 nullChar)).getD [])) =
      (Except.ok ⟨[8], 8, false, List.replicate 64 nullChar⟩, false) := by decide

/-- C5 counterexample: with start = 1 and two discovered files (indices 1
and 2, file_count = 2, rows = 3, cols = 4), the claim puts index 2 in the
processed range [start, start + file_count); the loop `for (i = start_i;
i < file_count; ++i)` never loads it. -/
theorem c5_fill_counterexample : ¬ ((2, 24) ∈ folder_fill 1 2 3 4) := by decide

lemma folder_fill_go_mem (rows cols : Nat) :
    ∀ (fuel st i off : Nat),
      ((i, off) ∈ folder_fill_go rows cols fuel st ↔
        (st ≤ i ∧ i < st + fuel ∧ off = i * rows * cols)) := by
  intro fuel
  induction fuel with
  | zero =>
    intro st i off
    simp [folder_fill_go]
    omega
  | succ k ih =>
    intro st i off
    simp only [folder_fill_go, List.mem_cons, ih (st + 1) i off]
    constructor
    · rintro (heq | ⟨h1, h2, h3⟩)
      · rw [Prod.mk.injEq] at heq
        obtain ⟨rfl, rfl⟩ := heq
        exact ⟨Nat.le_refl i, by omega, rfl⟩
      · exact ⟨by omega, by omega, h3⟩
    · rintro ⟨h1, h2, h3⟩
      by_cases hie : i = st
      · subst hie
        left
        rw [h3]
      · right
        exact ⟨by omega, by omega, h3⟩

/-- C5 (amended): the fill loop of npy_folder2mat runs for i in
[start_i, file_count), not [start_i, start_i + file_count): the pair
(file index i, element offset i*rows*cols) is processed exactly when
start_i ≤ i < file_count.  When start_i > 0, the last start_i discovered
files are never loaded and the first start_i*rows*cols elements of the
output are never written. -/
theorem c5_fill_range :
    ∀ (start_i file_count rows cols i off : Nat),
      ((i, off) ∈ folder_fill start_i file_count rows cols ↔
        (start_i ≤ i ∧ i < file_count ∧ off = i * rows * cols)) := by
  intro start_i file_count rows cols i off
  unfold folder_fill
  rw [folder_fill_go_mem rows cols (file_count - start_i) start_i i off]
  constructor
  · rintro ⟨h1, h2, h3⟩
    exact ⟨h1, by omega, h3⟩
  · rintro ⟨h1, h2, h3⟩
    exact ⟨h1, by omega, h3⟩

/-- C5 witness: with start 2 and five files, file 2 is loaded at element
offset 24. -/
theorem c5_fill_range_witness : (2, 24) ∈ folder_fill 2 5 3 4 :=
  (c5_fill_range 2 5 3 4 2 24).mpr (by decide)

/-- C6 counterexample: a 2x2 float32 file (declared word_size 4) loaded
through load_npy_mat with sizeof(T) = 8 produces a matrix instead of
failing: the adapter performs no element-kind check at all. -/
theorem c6_no_word_size_check :
    exceptIsOk (load_npy_mat_file 8 wordSizeMismatchFile) = true := by decide

/-- C6 (amended): load_npy_mat checks only the rank.  For every container
of rank 2 it returns a matrix, whatever the relation between the declared
word_size and sizeof(T). -/
theorem c6_rank_is_the_only_check :
    ∀ (tSize : Nat) (a : NpyArr), a.shape.length = 2 →
      exceptIsOk (load_npy_mat_model tSize a) = true := by
  intro tSize a h2
  simp only [load_npy_mat_model]
  rw [if_neg (by simp [h2])]
  rfl

/-- C6 witness: a rank-2 container with word_size 4 converts with
tSize 8. -/
theorem c6_rank_is_the_only_check_witness :
    exceptIsOk (load_npy_mat_model 8 ⟨[1, 1], 4, false, List.replicate 4 nullChar⟩) =
      true :=
  c6_rank_is_the_only_check 8 ⟨[1, 1], 4, false, List.replicate 4 nullChar⟩ (by decide)

/-- C7 counterexample: the descr token <f2 — a type-letter/width pair
outside the element-kind registry — is accepted by the parser, which
returns word_size 2 instead of failing with UnsupportedDtype. -/
theorem c7_unsupported_dtype_accepted :
    parse_npy_header (dtypeTestFile ['<','f','2']) =
      Except.ok (⟨2, [4], false⟩, []) := by decide

/-- C7 (amended): the parser validates only the endianness marker of the
descr token.  An unknown type letter with any width parses successfully
with word_size = atoi(width); only a big-endian marker is rejected. -/
theorem c7_only_endianness_checked :
    parse_npy_header (dtypeTestFile ['<','x','4']) =
      Except.ok (⟨4, [4], false⟩, []) ∧
    parse_npy_header (dtypeTestFile ['<','q','6']) =
      Except.ok (⟨6, [4], false⟩, []) ∧
    parse_npy_header (dtypeTestFile ['>','f','4']) =
      Except.error "parse_npy_header: only little endian data is supported" := by decide

/-- C8 counterexample: when the output file cannot be opened, save_arr
surfaces no error to the caller (the function returns void and throws
nothing), and likewise save_mat swallows the unsupported-dtype failure:
both merely print to stderr. -/
theorem c8_errors_not_surfaced :
    (save_arr_model false CppType.double [] 3).callerError = none ∧
    (save_mat_model true (CppType.other 3) false 2 2 []).callerError = none := by decide

/-- C8 (amended): save_arr and save_mat never surface an error to the
caller on any path: open failure and unsupported element type are reported
only as stderr diagnostics, and in the unsupported-dtype case the stream
already holds the magic and version bytes written before the check. -/
theorem c8_errors_swallowed :
    ∀ (openOk : Bool) (t : CppType) (data : List Char) (n : Nat) (fo : Bool)
      (r c : Nat) (data2 : List Char),
      (save_arr_model openOk t data n).callerError = none ∧
      (save_mat_model openOk t fo r c data2).callerError = none ∧
      (openOk = false →
        (save_arr_model openOk t data n).stderrMsgs = [openFailMsg] ∧
        (save_mat_model openOk t fo r c data2).stderrMsgs = [openFailMsg]) ∧
      (openOk = true → dtype_of t = none →
        (save_arr_model openOk t data n).stderrMsgs = [unsupMsg] ∧
        (save_arr_model openOk t data n).content = sMagic ++ verBytes2) := by
  intro openOk t data n fo r c data2
  cases openOk <;> cases ht : dtype_of t <;>
    simp [save_arr_model, save_mat_model, save_arr_header, save_mat_header, ht]

/-- C8 witness: open failure on save_arr of a float array returns normally
with only a stderr message. -/
theorem c8_errors_swallowed_witness :
    (save_arr_model false CppType.float [] 2).callerError = none ∧
    (save_arr_model false CppType.float [] 2).stderrMsgs = [openFailMsg] :=
  ⟨(c8_errors_swallowed false CppType.float [] 2 false 1 1 []).1,
   ((c8_errors_swallowed false CppType.float [] 2 false 1 1 []).2.2.1 rfl).1⟩

/-- C9 counterexample: a 12-byte stream (magic, version and length field
only) makes header parsing throw, and _map_data leaks the FILE* it opened:
the handle is not closed on that exit path. -/
theorem c9_handle_leaked_on_parse_failure :
    map_data_model (some (sMagic ++ verBytes2 ++ le4 0)) =
      (Except.error "parse_npy_header: failed to read header", true) := by decide

/-- C9 (amended): in npy_load and _map_data the fclose sits after all the
throwing operations, so the handle is leaked exactly when the operation
fails: header-parse failures and short payload reads propagate with the
handle still open; only the success path closes it (and a failed fopen
acquires no handle). -/
theorem c9_handle_leak_iff :
    ∀ bytes : List Char,
      ((map_data_model (some bytes)).2 = true ↔
        exceptIsOk (map_data_model (some bytes)).1 = false) ∧
      ((npy_load_model (some bytes)).2 = true ↔
        exceptIsOk (npy_load_model (some bytes)).1 = false) ∧
      (map_data_model none).2 = false ∧ (npy_load_model none).2 = false := by
  intro bytes
  refine ⟨?_, ?_, rfl, rfl⟩
  · simp only [map_data_model]
    cases hp : parse_npy_header bytes with
    | error e => simp [exceptIsOk]
    | ok pr =>
      by_cases hlen : pr.2.length < pr.1.word_size * (pr.1.shape.foldl (· * ·) 1)
      · simp [exceptIsOk, if_pos hlen]
      · simp [exceptIsOk, if_neg hlen]
  · simp only [npy_load_model]
    cases hl : load_the_npy_file_model bytes with
    | error e => simp [exceptIsOk]
    | ok arr => simp [exceptIsOk]

/-- C9 witness: a failed fopen leaks nothing. -/
theorem c9_handle_leak_iff_witness : (map_data_model none).2 = false :=
  (c9_handle_leak_iff []).2.2.1

lemma take_eq_takeWhile_take (p : Char → Bool) :
    ∀ (l : List Char) (m : Nat), m ≤ (l.takeWhile p).length →
      l.take m = (l.takeWhile p).take m := by
  intro l
  induction l with
  | nil =>
    intro m hm
    simp at hm
    subst hm
    rfl
  | cons x tl ih =>
    intro m hm
    by_cases hx : p x
    · rw [List.takeWhile_cons, if_pos hx] at hm ⊢
      cases m with
      | zero => rfl
      | succ m2 =>
        rw [List.take_succ_cons, List.take_succ_cons,
          ih m2 (by simpa using hm)]
    · rw [List.takeWhile_cons, if_neg hx] at hm
      simp at hm
      subst hm
      rfl

/-- C10: the implicit 256-byte buffer limit.  After the 11 consumed bytes,
fgets reads at most 255 characters; when more than 255 bytes separate file
offset 11 from the terminating newline, the buffer holds no newline, the
header-substring scan yields nothing, and parsing fails — however
well-formed the on-disk header is. -/
theorem c10_header_buffer_limit :
    ∀ file : List Char, 11 ≤ file.length →
      255 < ((file.drop 11).takeWhile (fun c => c ≠ nlChar)).length →
      parse_npy_header file =
        Except.error "parse_npy_header: failed to read header" := by
  intro file h11 hlong
  have hnonl : ∀ x ∈ (file.drop 11).take 255, x ≠ nlChar := by
    intro x hx
    rw [take_eq_takeWhile_take (fun c => c ≠ nlChar) (file.drop 11) 255 (by omega)] at hx
    have := List.mem_takeWhile_imp (List.mem_of_mem_take hx)
    simpa using this
  have hne : file.drop 11 ≠ [] := by
    intro h
    rw [h] at hlong
    simp at hlong
  have hfnone : findCharIdx ((file.drop 11).take 255) nlChar = none :=
    findCharIdx_all_ne hnonl
  have hfhs : find_header_substring ((file.drop 11).take 255) = [] := by
    unfold find_header_substring
    rw [if_neg (fun hmem => hnonl _ hmem rfl)]
  simp only [parse_npy_header]
  rw [if_neg (by omega)]
  rw [if_neg hne]
  simp only [fgets_255]
  rw [hfnone]
  simp only []
  rw [hfhs]
  rw [if_pos (by simp)]

/-- C10 witness: a 300-byte stream of letters with no newline at all
fails to parse. -/
theorem c10_header_buffer_limit_witness :
    11 ≤ (List.replicate 300 'a').length ∧
    255 < (((List.replicate 300 'a').drop 11).takeWhile (fun c => c ≠ nlChar)).length ∧
    parse_npy_header (List.replicate 300 'a') =
      Except.error "parse_npy_header: failed to read header" :=
  ⟨by decide, by decide, c10_header_buffer_limit _ (by decide) (by decide)⟩
